import Mathlib

/-!
Verification of the bulk file renamer (src/bulk_rename.py).

Filenames and user responses are modelled as lists of characters (Python
strings).  The directory is modelled as the list of names of the regular
files it contains; `none` stands for a path that is not a directory.  The
functions below are direct translations of the Python source: the stem and
extension split `splitext`, the five per-filename transform strategies, the
plan-building loop of `bulk_rename` (lines 72-101), the confirmation prompt
(lines 114-119), the apply loop with its target-exists guard (lines 125-141)
and the exit behaviour of `main` (lines 180-203).
-/

set_option autoImplicit false

namespace BulkRename

/-- A Python string: filenames, transform parameters and prompt responses. -/
abbrev Name := List Char

/-- Index of the last occurrence of the dot character in a name, if any.
Models the rfind of the extension separator used by CPython splitext. -/
def rfindDot : Name → Option Nat
  | [] => none
  | c :: cs =>
    match rfindDot cs with
    | some i => some (i + 1)
    | none => if c = '.' then some 0 else none

/-- Models os.path.splitext restricted to a bare filename (no path
separators): split at the last dot, unless every character strictly before
that dot is itself a dot, in which case the whole name is the stem and the
extension is empty (CPython posixpath splitext, leading-dot rule). -/
def splitext (f : Name) : Name × Name :=
  match rfindDot f with
  | none => (f, [])
  | some d =>
    if ∃ c ∈ f.take d, c ≠ '.' then (f.take d, f.drop d) else (f, [])

/-- The extension of a filename in the sense of the specification glossary:
the trailing portion from (and including) the last dot to the end, empty if
no dot is present.  Used to compare the spec's wording with the code. -/
def extSpec (f : Name) : Name :=
  match rfindDot f with
  | none => []
  | some d => f.drop d

/-- Translation of add_prefix (src/bulk_rename.py lines 16-19). -/
def add_prefix (f p : Name) : Name :=
  p ++ (splitext f).1 ++ (splitext f).2

/-- Translation of add_suffix (src/bulk_rename.py lines 22-25). -/
def add_suffix (f s : Name) : Name :=
  (splitext f).1 ++ s ++ (splitext f).2

/-- If the first list is a prefix of the second, return the remainder after
it; models the prefix test inside CPython str.replace scanning. -/
def stripPre : Name → Name → Option Name
  | [], s => some s
  | _ :: _, [] => none
  | a :: as, b :: bs => if a = b then stripPre as bs else none

/-- Left-to-right non-overlapping replacement of a nonempty search string,
as CPython str.replace performs it.  The fuel argument is the length of the
string being scanned: every step consumes at least one character, so the
fuel never runs out before the string does. -/
def replNEGo (o : Char) (os new : Name) : Nat → Name → Name
  | _, [] => []
  | 0, s => s
  | fuel + 1, c :: rest =>
    match stripPre (o :: os) (c :: rest) with
    | some rem => new ++ replNEGo o os new fuel rem
    | none => c :: replNEGo o os new fuel rest

/-- Models CPython str.replace with all occurrences replaced.  An empty
search string inserts the replacement at every character boundary, i.e.
before every character and once after the last one. -/
def pyReplace (old new s : Name) : Name :=
  match old with
  | [] => new ++ s.foldr (fun c acc => c :: (new ++ acc)) []
  | o :: os => replNEGo o os new s.length s

/-- Translation of replace_text (src/bulk_rename.py lines 28-32). -/
def replace_text (f old new : Name) : Name :=
  pyReplace old new (splitext f).1 ++ (splitext f).2

/-- Translation of regex_replace (src/bulk_rename.py lines 35-39).  The
regex engine is abstracted: sub stands for the total function
stem to re.sub of pattern, replacement and stem, for the compiled pattern
and replacement of the invocation.  A concrete instance for the pattern
IMG_ followed by a captured digit run is given by reSubIMG below. -/
def regex_replace (sub : Name → Name) (f : Name) : Name :=
  sub (splitext f).1 ++ (splitext f).2

/-- Expansion of a CPython re.sub replacement template for a single capture
group: a backslash followed by the digit one is replaced by the group text;
every other character, the dollar sign included, is copied literally
(dollar has no special meaning in Python replacement templates). -/
def expandPyTemplate (g : Name) : Name → Name
  | [] => []
  | '\\' :: '1' :: rest => g ++ expandPyTemplate g rest
  | c :: rest => c :: expandPyTemplate g rest

/-- Scanning loop of re.sub for the pattern IMG underscore followed by a
captured nonempty digit run: at each position, a match consumes the literal
head and the maximal digit run (the regex plus is greedy and nothing
follows it) and emits the expanded template; otherwise one character is
copied and scanning resumes at the next position.  After the literal head
matched but no digit followed, the three following characters cannot start
a match (a match starts with the letter I), so they are copied together.
The fuel argument starts at the length of the scanned string; every step
consumes at least one character, so the fuel never runs out first. -/
def reSubIMGGo (repl : Name) : Nat → Name → Name
  | _, [] => []
  | 0, s => s
  | fuel + 1, 'I' :: 'M' :: 'G' :: '_' :: rest =>
    if rest.takeWhile Char.isDigit = [] then
      'I' :: 'M' :: 'G' :: '_' :: reSubIMGGo repl fuel rest
    else
      expandPyTemplate (rest.takeWhile Char.isDigit) repl ++
        reSubIMGGo repl fuel (rest.dropWhile Char.isDigit)
  | fuel + 1, c :: rest => c :: reSubIMGGo repl fuel rest

/-- Models re.sub with the pattern IMG underscore followed by a captured
digit run, applied to a stem, with replacement template repl. -/
def reSubIMG (repl s : Name) : Name :=
  reSubIMGGo repl s.length s

/-- One item of a Python format template as used in pattern mode: a literal
chunk, the stem field, the extension field, or the index or counter field
rendered in decimal with an optional zero-padded minimum width. -/
inductive TItem where
  | lit (s : Name)
  | fieldName
  | fieldExt
  | fieldIndex (pad : Nat)
  | fieldCounter (pad : Nat)

/-- A parsed format template for pattern mode. -/
abbrev Template := List TItem

/-- Decimal digits of a natural number. -/
def natChars (n : Nat) : Name :=
  (Nat.repr n).toList

/-- Zero-pad a rendered number on the left up to the given width. -/
def padZero (w : Nat) (s : Name) : Name :=
  List.replicate (w - s.length) '0' ++ s

/-- Rendering of one template item given the stem, the extension and the
index and counter values supplied by the loop of bulk_rename. -/
def renderItem (n e : Name) (idx cnt : Nat) : TItem → Name
  | .lit s => s
  | .fieldName => n
  | .fieldExt => e
  | .fieldIndex pad => padZero pad (natChars idx)
  | .fieldCounter pad => padZero pad (natChars cnt)

/-- Models str.format of the pattern template with the named fields name,
ext, index and counter (src/bulk_rename.py lines 86-91). -/
def formatTemplate (t : Template) (n e : Name) (idx cnt : Nat) : Name :=
  match t with
  | [] => []
  | it :: rest => renderItem n e idx cnt it ++ formatTemplate rest n e idx cnt

/-- The rename mode of one invocation, mirroring the mode string dispatch of
bulk_rename (src/bulk_rename.py lines 76-95).  The regex mode carries the
substitution function on stems determined by its pattern and replacement;
otherMode stands for any mode string outside the five known ones. -/
inductive Mode where
  | prefixMode (p : Name)
  | suffixMode (s : Name)
  | replaceMode (old new : Name)
  | regexMode (sub : Name → Name)
  | patternMode (t : Template)
  | otherMode

/-- Whether the mode string is one of the five recognized by bulk_rename. -/
def Mode.isKnown : Mode → Bool
  | .otherMode => false
  | _ => true

/-- One iteration of the transform dispatch in the loop of bulk_rename
(lines 76-92): the new name for the file and the updated counter, which is
incremented only in pattern mode. -/
def transformStep (mode : Mode) (index counter : Nat) (f : Name) : Name × Nat :=
  match mode with
  | .prefixMode p => ( add_prefix f p, counter)
  | .suffixMode s => ( add_suffix f s, counter)
  | .replaceMode old new => (replace_text f old new, counter)
  | .regexMode sub => (regex_replace sub f, counter)
  | .patternMode t =>
    (formatTemplate t (splitext f).1 (splitext f).2 index counter, counter + 1)
  | .otherMode => (f, counter)

/-- The plan-building loop of bulk_rename (lines 75-101): files are visited
in order with a one-based index, the counter is threaded through, and any
pair whose new name equals the old name is dropped. -/
def buildGo (mode : Mode) (index counter : Nat) : List Name → List (Name × Name)
  | [] => []
  | f :: rest =>
    if (transformStep mode index counter f).1 = f then
      buildGo mode (index + 1) (transformStep mode index counter f).2 rest
    else
      (f, (transformStep mode index counter f).1) ::
        buildGo mode (index + 1) (transformStep mode index counter f).2 rest

/-- Code-point comparison of two names, as Python string comparison. -/
def lexLe : Name → Name → Bool
  | [], _ => true
  | _ :: _, [] => false
  | a :: as, b :: bs =>
    if a.toNat < b.toNat then true
    else if b.toNat < a.toNat then false
    else lexLe as bs

/-- Stable insertion into a sorted list of names. -/
def insertName (x : Name) : List Name → List Name
  | [] => [x]
  | y :: ys => if lexLe x y then x :: y :: ys else y :: insertName x ys

/-- Models files.sort() (line 69): stable lexicographic sort. -/
def sortFiles : List Name → List Name
  | [] => []
  | x :: xs => insertName x (sortFiles xs)

/-- The finalized plan of an invocation: the loop applied to the sorted
listing with index and counter both starting at one. -/
def planOf (mode : Mode) (files : List Name) : List (Name × Name) :=
  buildGo mode 1 1 (sortFiles files)

/-- Reference plan for pattern mode written from the specification's words:
the counter field receives a value identical to the index, the one-based
position in the sorted file list.  Compared with planOf in the proofs. -/
def goIndexOnly (t : Template) (i : Nat) : List Name → List (Name × Name)
  | [] => []
  | f :: rest =>
    if formatTemplate t (splitext f).1 (splitext f).2 i i = f then
      goIndexOnly t (i + 1) rest
    else
      (f, formatTemplate t (splitext f).1 (splitext f).2 i i) ::
        goIndexOnly t (i + 1) rest

/-- Insertion of a chunk at every character boundary of a stem: before each
character and once after the last one.  This is the behaviour claimed for
replace mode with an empty search string. -/
def boundaryInsert (new stem : Name) : Name :=
  match stem with
  | [] => new
  | c :: rest => new ++ c :: boundaryInsert new rest

/-- Whether a name contains no dot character. -/
def dotFree (s : Name) : Bool :=
  s.all (fun c => c != '.')

/-- The whitespace characters stripped by Python str.strip (ASCII part). -/
def isPySpace (c : Char) : Bool :=
  c == ' ' || c == '\t' || c == '\n' || c == '\r' || c == '\x0b' || c == '\x0c'

/-- Models str.strip with no argument: remove leading and trailing
whitespace. -/
def pyStrip (s : Name) : Name :=
  ((s.dropWhile isPySpace).reverse.dropWhile isPySpace).reverse

/-- Models str.lower on the ASCII range, which is all the confirmation
check inspects. -/
def pyLower (s : Name) : Name :=
  s.map Char.toLower

/-- The normalization applied to the prompt response at line 116:
strip then lower. -/
def pyStripLower (s : Name) : Name :=
  pyLower (pyStrip s)

/-- The apply loop of bulk_rename (lines 125-141) over the current
directory contents: if the target name already exists the entry is counted
in the error tally and the directory is left unchanged; otherwise, if the
source still exists, it is renamed and counted as a success; a rename whose
source has disappeared raises and is counted in the error tally.  Returns
the final directory contents, the success count and the error count. -/
def applyChanges : List Name → List (Name × Name) → List Name × Nat × Nat
  | fs, [] => (fs, 0, 0)
  | fs, (old, nw) :: rest =>
    if nw ∈ fs then
      ((applyChanges fs rest).1, (applyChanges fs rest).2.1,
        (applyChanges fs rest).2.2 + 1)
    else if old ∈ fs then
      ((applyChanges (fs.erase old ++ [nw]) rest).1,
        (applyChanges (fs.erase old ++ [nw]) rest).2.1 + 1,
        (applyChanges (fs.erase old ++ [nw]) rest).2.2)
    else
      ((applyChanges fs rest).1, (applyChanges fs rest).2.1,
        (applyChanges fs rest).2.2 + 1)

/-- The observable outcome of one call to bulk_rename. -/
inductive RunResult where
  | notADirectory
  | noFiles
  | unknownMode
  | noChanges
  | cancelled
  | done (succ errs : Nat)
deriving DecidableEq

/-- Whether the outcome reached the rename loop. -/
def RunResult.isDone : RunResult → Bool
  | .done _ _ => true
  | _ => false

/-- Translation of bulk_rename (src/bulk_rename.py lines 55-143).  The
directory argument is none when os.path.isdir fails, otherwise the list of
regular files it contains; resp is the operator's reply to the confirmation
prompt, read only when force is not set.  An unknown mode makes the loop
print an error and return on its first iteration, before any change is
collected.  Returns the final directory contents and the outcome. -/
def bulkRename (dir : Option (List Name)) (mode : Mode) (force : Bool)
    (resp : Name) : Option (List Name) × RunResult :=
  match dir with
  | none => (none, .notADirectory)
  | some files =>
    if files = [] then (some files, .noFiles)
    else if mode.isKnown then
      if planOf mode files = [] then (some files, .noChanges)
      else if force then
        (some (applyChanges files (planOf mode files)).1,
          .done (applyChanges files (planOf mode files)).2.1
            (applyChanges files (planOf mode files)).2.2)
      else if pyStripLower resp = "y".toList then
        (some (applyChanges files (planOf mode files)).1,
          .done (applyChanges files (planOf mode files)).2.1
            (applyChanges files (planOf mode files)).2.2)
      else (some files, .cancelled)
    else (some files, .unknownMode)

/-- The command line as main sees it after argparse: either argparse itself
rejected the arguments (an unknown subcommand makes it print usage and exit
with status two, modelled from the documented CPython argparse behaviour),
or no subcommand was given, or a mode and its force flag were parsed. -/
inductive CliArgs where
  | badUsage
  | noMode
  | parsed (m : Mode) (force : Bool)

/-- Translation of main (src/bulk_rename.py lines 180-203) at the level of
process exit codes: argparse rejection exits with two before main's body
runs; a missing subcommand exits with one (line 185); otherwise
bulk_rename is called, its return value is ignored and the process falls
off the end of main with exit code zero. -/
def mainRun (dir : Option (List Name)) (args : CliArgs) (resp : Name) :
    Option (List Name) × Nat :=
  match args with
  | .badUsage => (dir, 2)
  | .noMode => (dir, 1)
  | .parsed m force => ((bulkRename dir m force resp).1, 0)

end BulkRename

namespace BulkRename

theorem rfindDot_eq_none (s : Name) : rfindDot s = none ↔ ∀ c ∈ s, c ≠ '.' := by
  induction s with
  | nil => simp [rfindDot]
  | cons c cs ih =>
    cases h : rfindDot cs with
    | some i =>
      simp only [rfindDot, h]
      constructor
      · intro hn; exact absurd hn (by simp)
      · intro hall
        have hcs : ∀ x ∈ cs, x ≠ '.' := fun x hx => hall x (List.mem_cons_of_mem c hx)
        rw [ih.mpr hcs] at h
        exact absurd h (by simp)
    | none =>
      simp only [rfindDot, h]
      by_cases hc : c = '.'
      · subst hc
        simp only [if_pos rfl]
        constructor
        · intro hn; exact absurd hn (by simp)
        · intro hall; exact absurd rfl (hall '.' (List.mem_cons_self _ _))
      · simp only [if_neg hc]
        constructor
        · intro _ x hx
          rcases List.mem_cons.mp hx with rfl | hx'
          · exact hc
          · exact (ih.mp h) x hx'
        · intro _; trivial

theorem rfindDot_append (t : Name) (ht : ∀ c ∈ t, c ≠ '.') (L : Name) :
    rfindDot (L ++ '.' :: t) = some L.length := by
  induction L with
  | nil =>
    simp only [List.nil_append, rfindDot, (rfindDot_eq_none t).mpr ht]
    simp
  | cons a L ih =>
    simp only [List.cons_append, rfindDot, List.append_eq, ih, List.length_cons]

theorem extSpec_append (L t : Name) (ht : ∀ c ∈ t, c ≠ '.') :
    extSpec (L ++ '.' :: t) = '.' :: t := by
  simp only [extSpec, rfindDot_append t ht L]
  exact List.drop_left L ('.' :: t)

theorem rfindDot_drop : ∀ (s : Name) (d : Nat), rfindDot s = some d →
    ∃ t, s.drop d = '.' :: t ∧ ∀ c ∈ t, c ≠ '.' := by
  intro s
  induction s with
  | nil => intro d h; simp [rfindDot] at h
  | cons c cs ih =>
    intro d h
    cases hcs : rfindDot cs with
    | some i =>
      simp only [rfindDot, hcs, Option.some.injEq] at h
      subst h
      simpa [List.drop_succ_cons] using ih i hcs
    | none =>
      simp only [rfindDot, hcs] at h
      by_cases hc : c = '.'
      · rw [if_pos hc] at h
        simp only [Option.some.injEq] at h
        subst h
        subst hc
        exact ⟨cs, by simp, (rfindDot_eq_none cs).mp hcs⟩
      · rw [if_neg hc] at h
        exact absurd h (by simp)

/-- Claim C3 fails as stated: in suffix mode with a suffix that contains a
dot, a filename with no extension acquires one, so the extension in the
sense of the specification (from the last dot to the end) changes. -/
theorem c3_counterexample :
    add_suffix ("foo".toList) (".bak".toList) = ("foo.bak".toList) ∧
    extSpec ("foo.bak".toList) ≠ extSpec ("foo".toList) := by
  decide

/-- Claim C3 (amended): for every filename whose splitext extension is
nonempty, the Prefix and Suffix transforms leave the extension, in the
sense of the trailing portion from the last dot, unchanged, for every
prefix and suffix value. -/
theorem c3_theorem (f p s : Name) (h : (splitext f).2 ≠ []) :
    extSpec ( add_prefix f p) = extSpec f ∧ extSpec ( add_suffix f s) = extSpec f := by
  cases hrf : rfindDot f with
  | none => exact absurd (by simp [splitext, hrf]) h
  | some d =>
    by_cases hex : ∃ c ∈ f.take d, c ≠ '.'
    · have hsp : splitext f = (f.take d, f.drop d) := by
        simp [splitext, hrf, hex]
      obtain ⟨t, hdrop, ht⟩ := rfindDot_drop f d hrf
      have hf : f = f.take d ++ '.' :: t := by
        conv_lhs => rw [← List.take_append_drop d f]
        rw [hdrop]
      have hext : extSpec f = '.' :: t := by
        have h2 := extSpec_append (f.take d) t ht
        rw [← hf] at h2
        exact h2
      constructor
      · have hpre : add_prefix f p = (p ++ f.take d) ++ '.' :: t := by
          simp only [ add_prefix, hsp]
          rw [hdrop, List.append_assoc]
        rw [hpre, extSpec_append _ t ht, hext]
      · have hsuf : add_suffix f s = (f.take d ++ s) ++ '.' :: t := by
          simp only [ add_suffix, hsp]
          rw [hdrop, List.append_assoc]
        rw [hsuf, extSpec_append _ t ht, hext]
    · have : splitext f = (f, []) := by simp [splitext, hrf, hex]
      exact absurd (by rw [this]) h

/-- Witness for the amended claim C3 at the filename a.txt. -/
theorem c3_witness :
    (splitext ("a.txt".toList)).2 ≠ [] ∧
    extSpec ( add_prefix ("a.txt".toList) ("x_".toList)) = extSpec ("a.txt".toList) :=
  ⟨by decide, (c3_theorem ("a.txt".toList) ("x_".toList) ("_1".toList) (by decide)).1⟩

/-- Claim C10: a filename that begins with a dot and has no other dot is
all stem with an empty extension, so prefix mode puts the prefix before the
leading dot and suffix mode appends the suffix after the whole name. -/
theorem c10_theorem (rest p s : Name) (h : dotFree rest = true) :
    splitext ('.' :: rest) = ('.' :: rest, []) ∧
    add_prefix ('.' :: rest) p = p ++ '.' :: rest ∧
    add_suffix ('.' :: rest) s = ('.' :: rest) ++ s := by
  have hnd : ∀ c ∈ rest, c ≠ '.' := by
    intro c hc
    have := List.all_eq_true.mp h c hc
    simpa using this
  have h0 : rfindDot ('.' :: rest) = some 0 := by
    simp only [rfindDot, (rfindDot_eq_none rest).mpr hnd]
    simp
  have hsp : splitext ('.' :: rest) = ('.' :: rest, []) := by
    simp [splitext, h0]
  refine ⟨hsp, ?_, ?_⟩
  · simp only [ add_prefix, hsp]
    simp
  · simp only [ add_suffix, hsp]
    simp

/-- Witness for claim C10 at the filename dot bashrc. -/
theorem c10_witness :
    dotFree ("bashrc".toList) = true ∧
    add_prefix ('.' :: ("bashrc".toList)) ("x_".toList) =
      ("x_".toList) ++ '.' :: ("bashrc".toList) :=
  ⟨by decide, (c10_theorem ("bashrc".toList) ("x_".toList) ("_v".toList) (by decide)).2.1⟩

end BulkRename

namespace BulkRename

theorem foldr_boundary (new : Name) :
    ∀ stem : Name,
      new ++ stem.foldr (fun c acc => c :: (new ++ acc)) [] = boundaryInsert new stem := by
  intro stem
  induction stem with
  | nil => simp [boundaryInsert]
  | cons c rest ih =>
    simp only [List.foldr_cons, boundaryInsert]
    rw [← ih]

/-- Claim C8: replace mode with an empty search string inserts the new text
at every character boundary of the stem, before each character and once at
the end, and leaves the extension unchanged, following the Python
str.replace semantics for an empty search string. -/
theorem c8_theorem (f new : Name) :
    replace_text f [] new = boundaryInsert new (splitext f).1 ++ (splitext f).2 := by
  simp only [replace_text, pyReplace]
  rw [foldr_boundary]

/-- Claim C4 fails as stated: Python re.sub copies a dollar sign followed
by a digit literally, so the replacement photo dollar one produces the name
photo dollar one dot jpg, not photo 0012 dot jpg. -/
theorem c4_counterexample :
    regex_replace (reSubIMG ("photo_$1".toList)) ("IMG_0012.jpg".toList) =
      ("photo_$1.jpg".toList) ∧
    ("photo_$1.jpg".toList) ≠ ("photo_0012.jpg".toList) := by
  decide

/-- Claim C4 (amended): with the backreference written in Python syntax, a
backslash before the group number, the regex transform on IMG 0012 dot jpg
yields photo 0012 dot jpg. -/
theorem c4_theorem :
    regex_replace (reSubIMG ("photo_\\1".toList)) ("IMG_0012.jpg".toList) =
      ("photo_0012.jpg".toList) := by
  decide

theorem buildGo_no_noop (mode : Mode) :
    ∀ (files : List Name) (i c : Nat) (pr : Name × Name),
      pr ∈ buildGo mode i c files → pr.1 ≠ pr.2 := by
  intro files
  induction files with
  | nil => intro i c pr hpr; simp [buildGo] at hpr
  | cons f rest ih =>
    intro i c pr hpr
    by_cases heq : (transformStep mode i c f).1 = f
    · simp only [buildGo, if_pos heq] at hpr
      exact ih _ _ pr hpr
    · simp only [buildGo, if_neg heq] at hpr
      rcases List.mem_cons.mp hpr with rfl | h2
      · intro hcontra
        exact heq hcontra.symm
      · exact ih _ _ pr h2

/-- Claim C6: the finalized plan never contains a pair whose target name
equals its original name, for every mode and every directory listing. -/
theorem c6_theorem (mode : Mode) (files : List Name) (pr : Name × Name)
    (h : pr ∈ planOf mode files) : pr.1 ≠ pr.2 :=
  buildGo_no_noop mode (sortFiles files) 1 1 pr h

/-- Witness for claim C6 on a one-file directory in prefix mode. -/
theorem c6_witness :
    (("a".toList, "x_a".toList)) ∈ planOf (.prefixMode ("x_".toList)) [("a".toList)] ∧
    ("a".toList : Name) ≠ ("x_a".toList) :=
  ⟨by decide,
    c6_theorem (.prefixMode ("x_".toList)) [("a".toList)]
      (("a".toList, "x_a".toList)) (by decide)⟩

theorem buildGo_pattern (t : Template) :
    ∀ (files : List Name) (i : Nat),
      buildGo (.patternMode t) i i files = goIndexOnly t i files := by
  intro files
  induction files with
  | nil => intro i; rfl
  | cons f rest ih =>
    intro i
    simp only [buildGo, goIndexOnly, transformStep]
    rw [ih (i + 1)]

/-- Claim C7: in pattern mode the counter value supplied to the template is
identical to the index value at every position, so the plan equals the
reference plan that supplies the one-based sorted position for both
fields. -/
theorem c7_theorem (t : Template) (files : List Name) :
    planOf (.patternMode t) files = goIndexOnly t 1 (sortFiles files) :=
  buildGo_pattern t (sortFiles files) 1

end BulkRename

namespace BulkRename

theorem applyChanges_preserves (old : Name) :
    ∀ (rest : List (Name × Name)) (fs : List Name),
      old ∈ fs → (∀ q ∈ rest, q.1 ≠ old) → old ∈ (applyChanges fs rest).1 := by
  intro rest
  induction rest with
  | nil => intro fs h _; simpa [applyChanges] using h
  | cons q rest ih =>
    intro fs hfs hall
    obtain ⟨o, n⟩ := q
    have ho : o ≠ old := hall (o, n) (List.mem_cons_self _ _)
    have hall' : ∀ q ∈ rest, q.1 ≠ old := fun q hq => hall q (List.mem_cons_of_mem _ hq)
    by_cases hn : n ∈ fs
    · simp only [applyChanges, if_pos hn]
      exact ih fs hfs hall'
    · by_cases hoo : o ∈ fs
      · simp only [applyChanges, if_neg hn, if_pos hoo]
        refine ih _ ?_ hall'
        exact List.mem_append_left _ ((List.mem_erase_of_ne (Ne.symm ho)).mpr hfs)
      · simp only [applyChanges, if_neg hn, if_neg hoo]
        exact ih fs hfs hall'

/-- Claim C1 fails as stated: applying a plan whose only entry has an
already existing target leaves the directory unchanged but reports zero
successes and one failure, i.e. the entry is counted in the failure tally
rather than recorded as a distinct skipped outcome. -/
theorem c1_counterexample :
    applyChanges [("a.txt".toList), ("x_a.txt".toList)]
        [(("a.txt".toList), ("x_a.txt".toList))] =
      ([("a.txt".toList), ("x_a.txt".toList)], 0, 1) ∧
    (applyChanges [("a.txt".toList), ("x_a.txt".toList)]
        [(("a.txt".toList), ("x_a.txt".toList))]).2.2 ≠ 0 := by
  decide

/-- Claim C1 (amended): when the target of a plan entry already exists, the
source file is left untouched and unrenamed (provided no later entry names
it as a source, which no planner-produced plan does, listing names being
unique), every remaining entry is applied exactly as it would have been,
and the entry is recorded in the failure count, there being no separate
skipped category in the code. -/
theorem c1_theorem (fs : List Name) (old nw : Name) (rest : List (Name × Name))
    (h1 : nw ∈ fs) (h2 : old ∈ fs)
    (h3 : rest.all (fun q => q.1 != old) = true) :
    applyChanges fs ((old, nw) :: rest) =
      ((applyChanges fs rest).1, (applyChanges fs rest).2.1,
        (applyChanges fs rest).2.2 + 1) ∧
    old ∈ (applyChanges fs ((old, nw) :: rest)).1 := by
  have h3' : ∀ q ∈ rest, q.1 ≠ old := by
    intro q hq
    have := List.all_eq_true.mp h3 q hq
    simpa using this
  have heq : applyChanges fs ((old, nw) :: rest) =
      ((applyChanges fs rest).1, (applyChanges fs rest).2.1,
        (applyChanges fs rest).2.2 + 1) := by
    simp only [applyChanges, if_pos h1]
  refine ⟨heq, ?_⟩
  rw [heq]
  exact applyChanges_preserves old rest fs h2 h3'

/-- Witness for the amended claim C1: the skipped source is still present
after the run. -/
theorem c1_witness :
    ("x_a.txt".toList) ∈ [("a.txt".toList), ("x_a.txt".toList)] ∧
    ("a.txt".toList) ∈
      (applyChanges [("a.txt".toList), ("x_a.txt".toList)]
        [(("a.txt".toList), ("x_a.txt".toList))]).1 :=
  ⟨by decide,
    (c1_theorem [("a.txt".toList), ("x_a.txt".toList)] ("a.txt".toList)
      ("x_a.txt".toList) [] (by decide) (by decide) (by decide)).2⟩

theorem bulkRename_decline (d : Option (List Name)) (m : Mode) (resp : Name)
    (h : pyStripLower resp ≠ ("y".toList)) :
    (bulkRename d m false resp).1 = d ∧
      ((bulkRename d m false resp).2).isDone = false := by
  cases d with
  | none => exact ⟨rfl, rfl⟩
  | some files =>
    simp only [bulkRename]
    by_cases h1 : files = []
    · simp [h1, RunResult.isDone]
    · simp only [if_neg h1]
      by_cases h2 : Mode.isKnown m = true
      · simp only [h2, if_true]
        by_cases h3 : planOf m files = []
        · simp [h3, RunResult.isDone]
        · simp only [if_neg h3]
          rw [if_neg Bool.false_ne_true, if_neg h]
          exact ⟨rfl, rfl⟩
      · simp [h2, RunResult.isDone]

theorem bulkRename_y (d : Option (List Name)) (m : Mode) (resp : Name)
    (h : pyStripLower resp = ("y".toList)) :
    bulkRename d m false resp = bulkRename d m true resp := by
  cases d with
  | none => rfl
  | some files =>
    simp only [bulkRename]
    by_cases h1 : files = []
    · simp only [if_pos h1]
    · simp only [if_neg h1]
      by_cases h2 : Mode.isKnown m = true
      · simp only [h2, if_true]
        by_cases h3 : planOf m files = []
        · simp only [if_pos h3]
        · simp only [if_neg h3]
          rw [if_neg Bool.false_ne_true, if_pos h]
      · simp only [if_neg h2]

/-- Claim C5: with the force flag unset, a response other than the single
letter y, once stripped and lowercased, aborts the run with the directory
contents untouched. -/
theorem c5_theorem (d : Option (List Name)) (m : Mode) (resp : Name)
    (h : pyStripLower resp ≠ ("y".toList)) :
    (bulkRename d m false resp).1 = d :=
  (bulkRename_decline d m resp h).1

/-- Witness for claim C5 at the response n. -/
theorem c5_witness :
    pyStripLower ("n".toList) ≠ ("y".toList) ∧
    (bulkRename (some [("a.txt".toList)]) (.prefixMode ("x_".toList)) false
      ("n".toList)).1 = some [("a.txt".toList)] :=
  ⟨by decide,
    c5_theorem (some [("a.txt".toList)]) (.prefixMode ("x_".toList))
      ("n".toList) (by decide)⟩

/-- Claim C9: the run proceeds to apply the plan exactly when the stripped,
lowercased response is the single letter y, in which case it behaves as a
forced run; any other response, the word yes included, leaves the
directory unchanged and never reaches the rename loop. -/
theorem c9_theorem (d : Option (List Name)) (m : Mode) (resp : Name) :
    (pyStripLower resp = ("y".toList) →
      bulkRename d m false resp = bulkRename d m true resp) ∧
    (pyStripLower resp ≠ ("y".toList) →
      (bulkRename d m false resp).1 = d ∧
        ((bulkRename d m false resp).2).isDone = false) :=
  ⟨fun h => bulkRename_y d m resp h, fun h => bulkRename_decline d m resp h⟩

/-- Witness for claim C9 at the response yes, which cancels the run. -/
theorem c9_witness :
    (bulkRename (some [("a.txt".toList)]) (.prefixMode ("x_".toList)) false
      ("yes".toList)).1 = some [("a.txt".toList)] :=
  ((c9_theorem (some [("a.txt".toList)]) (.prefixMode ("x_".toList))
    ("yes".toList)).2 (by decide)).1

/-- Claim C2 fails as stated: on a path that is not a directory,
bulk_rename prints an error and returns, main falls through, and the
process exits with code zero, not a non-zero code. -/
theorem c2_counterexample :
    (mainRun none (.parsed (.prefixMode ("x_".toList)) false) []).2 = 0 := by
  rfl

/-- Claim C2 (amended): every run that reaches bulk_rename exits with code
zero, the nothing-to-do cases and the invalid-directory case included; the
exit code is one when no mode subcommand is given, and an unknown mode name
is rejected by the argument parser with exit code two before main's logic
runs. -/
theorem c2_theorem :
    (∀ (d : Option (List Name)) (m : Mode) (force : Bool) (resp : Name),
      (mainRun d (.parsed m force) resp).2 = 0) ∧
    (∀ (d : Option (List Name)) (resp : Name), (mainRun d .noMode resp).2 = 1) ∧
    (∀ (d : Option (List Name)) (resp : Name), (mainRun d .badUsage resp).2 = 2) :=
  ⟨fun _ _ _ _ => rfl, fun _ _ => rfl, fun _ _ => rfl⟩

end BulkRename
